import Mathlib

/-!
Verification of the task-suspension and timed-wakeup substrate of the
arceos kernel fork (modules/axtask): the async timer wheel
(`future/time.rs`), the per-CPU ticketed alarm path (`timers.rs`), the
wait queue (`wait_queue.rs`) and the polling bridge (`future/poll.rs`).

Time is modelled as `Nat` nanoseconds; the ambient `wall_time()` clock is
passed explicitly as a `now` argument to every operation that reads it.
Wakers and task references are modelled as opaque numeric identifiers.
-/

namespace ArceOS

/-- An abstract waker handle (`core::task::Waker`); identity is all that matters. -/
abbrev Waker := Nat

/-! ## Timer wheel (`future/time.rs`, `TimerRuntime`)

`TimerKey { deadline, key }` derives lexicographic `Ord`, so the
`BTreeMap` wheel is ordered first by deadline, then by the sequence
number `key`.  The wheel is embedded as a sorted association list. -/

/-- `TimerKey { deadline: TimeValue, key: u64 }` with derived lexicographic order. -/
abbrev TimerKey := Nat × Nat

/-- The derived `Ord` on `TimerKey`: deadline first, then sequence number. -/
def keyLtb (a b : TimerKey) : Bool :=
  a.1 < b.1 || (a.1 = b.1 && a.2 < b.2)

/-- `TimerState`: `Active(Option<Waker>)` or `Completed`. -/
inductive TimerState where
  | active (w : Option Waker)
  | completed
deriving DecidableEq, Repr

/-- `BTreeMap::insert` on the sorted association list backing the wheel:
keeps order, replaces an existing binding of the same key. -/
def insertEntry (k : TimerKey) (v : TimerState) :
    List (TimerKey × TimerState) → List (TimerKey × TimerState)
  | [] => [(k, v)]
  | e :: rest =>
    if keyLtb k e.1 then (k, v) :: e :: rest
    else if k = e.1 then (k, v) :: rest
    else e :: insertEntry k v rest

/-- `BTreeMap::get`: the state bound to `k`, if present. -/
def lookupEntry (k : TimerKey) : List (TimerKey × TimerState) → Option TimerState
  | [] => none
  | e :: rest => if e.1 = k then some e.2 else lookupEntry k rest

/-- `BTreeMap::remove`: drops the binding of `k` (keys are unique, so
filtering is the same as removing the first occurrence). -/
def removeEntry (k : TimerKey) (l : List (TimerKey × TimerState)) :
    List (TimerKey × TimerState) :=
  l.filter (fun e => e.1 ≠ k)

/-- `TimerRuntime { key: u64, wheel: BTreeMap<TimerKey, TimerState> }`. -/
structure TimerRuntime where
  key : Nat
  wheel : List (TimerKey × TimerState)
deriving DecidableEq, Repr

namespace TimerRuntime

/-- `TimerRuntime::new()`. -/
def new : TimerRuntime := { key := 0, wheel := [] }

/-- `TimerRuntime::add(deadline)`; `now` is the value read from `wall_time()`.
Returns `None` when `deadline <= wall_time()`, otherwise inserts
`Active(None)` under `(deadline, self.key)` and increments `self.key`. -/
def add (s : TimerRuntime) (now deadline : Nat) :
    TimerRuntime × Option TimerKey :=
  if deadline ≤ now then (s, none)
  else
    let k : TimerKey := (deadline, s.key)
    ({ key := s.key + 1, wheel := insertEntry k (.active none) s.wheel }, some k)

/-- `TimerRuntime::update_waker(key, waker)`: `get_mut` followed by an
unconditional overwrite with `Active(Some(waker))`; no-op when absent. -/
def update_waker (s : TimerRuntime) (k : TimerKey) (w : Waker) : TimerRuntime :=
  { s with wheel := s.wheel.map (fun e => if e.1 = k then (e.1, .active (some w)) else e) }

/-- `TimerRuntime::is_completed(key)`: true (and the entry is removed) iff
the stored state is `Completed`. -/
def is_completed (s : TimerRuntime) (k : TimerKey) : Bool × TimerRuntime :=
  if lookupEntry k s.wheel = some .completed then
    (true, { s with wheel := removeEntry k s.wheel })
  else (false, s)

/-- `TimerRuntime::cancel(key)`: unconditional `remove`. -/
def cancel (s : TimerRuntime) (k : TimerKey) : TimerRuntime :=
  { s with wheel := removeEntry k s.wheel }

/-- The in-order traversal of `TimerRuntime::wake`:
`iter_mut().take_while(deadline <= now)` replaces each taken state with
`Completed` and wakes the waker found in an `Active(Some(_))` entry.
Returns (new wheel, keys transitioned in processing order, wakers woken
in processing order). -/
def wakeGo (now : Nat) :
    List (TimerKey × TimerState) →
    List (TimerKey × TimerState) × List TimerKey × List Waker
  | [] => ([], [], [])
  | (k, v) :: rest =>
    if k.1 ≤ now then
      let r := wakeGo now rest
      ((k, .completed) :: r.1, k :: r.2.1,
        (match v with | .active (some w) => [w] | _ => []) ++ r.2.2)
    else ((k, v) :: rest, [], [])

/-- `TimerRuntime::wake()` with the clock reading `now`. -/
def wake (s : TimerRuntime) (now : Nat) :
    TimerRuntime × List TimerKey × List Waker :=
  let r := wakeGo now s.wheel
  ({ s with wheel := r.1 }, r.2.1, r.2.2)

end TimerRuntime

/-- One externally invokable `TimerRuntime` operation, used to quantify
over arbitrary interleavings of calls on the shared wheel. -/
inductive TimerOp where
  | opAdd (now deadline : Nat)
  | opUpdateWaker (k : TimerKey) (w : Waker)
  | opIsCompleted (k : TimerKey)
  | opCancel (k : TimerKey)
  | opWake (now : Nat)
deriving DecidableEq, Repr

/-- Apply one operation to the wheel (state part only). -/
def TimerRuntime.applyOp (s : TimerRuntime) : TimerOp → TimerRuntime
  | .opAdd now dl => (s.add now dl).1
  | .opUpdateWaker k w => s.update_waker k w
  | .opIsCompleted k => (s.is_completed k).2
  | .opCancel k => s.cancel k
  | .opWake now => (s.wake now).1

/-- Apply a sequence of operations, oldest first. -/
def TimerRuntime.applyOps (s : TimerRuntime) (ops : List TimerOp) : TimerRuntime :=
  ops.foldl TimerRuntime.applyOp s

/-- A sequence of `TimerRuntime::add` calls, all issued while the clock
reads `now` (the registration order is the list order). -/
def TimerRuntime.addAll (s : TimerRuntime) (now : Nat) (ds : List Nat) :
    TimerRuntime :=
  ds.foldl (fun a d => (a.add now d).1) s

/-- The waker stored in an entry, if any. -/
def wakerOf : TimerKey × TimerState → Option Waker
  | (_, .active (some w)) => some w
  | _ => none

/-! ## Deadline race combinator (`future/time.rs`, `timeout` / `timeout_at`)

The awaited operation `op` is modelled by its completion time `tc` (the
first instant a poll finds it ready) and its result value `v`.  An
idealized executor polls the `select_biased!` future at the first
instant at which either branch is ready — never before the call time
`now`, and not later than `min tc deadline` (the timer branch is made
ready by `check_timer_events` once the deadline has passed, the
operation branch by its own waker at `tc`).  Each poll examines the
operation first, then the `sleep_until` branch, exactly as
`select_biased!` lists them. -/

/-- Largest value representable by `core::time::Duration`
(`u64::MAX` seconds plus `999_999_999` nanoseconds), in nanoseconds. -/
def durationMax : Nat := 18446744073709551615 * 1000000000 + 999999999

/-- `Duration::checked_add`: `None` exactly when the sum is not
representable as a `Duration`. -/
def checked_add (a b : Nat) : Option Nat :=
  if a + b ≤ durationMax then some (a + b) else none

/-- Result of `timeout` / `timeout_at`: `Err(Elapsed)` or `Ok(value)`. -/
inductive TimeoutResult (α : Type) where
  | elapsed
  | ok (v : α)
deriving DecidableEq, Repr

/-- Outcome of one `timeout_at` call: its result, plus whether a wheel
entry was registered (`TimerRuntime::add` returned `Some`). -/
structure TimeoutOutcome (α : Type) where
  result : TimeoutResult α
  timerRegistered : Bool
deriving DecidableEq, Repr

/-- `timeout_at(deadline, f)`: with no deadline, plainly await `f` (no
`select`, no timer).  With a deadline, `sleep_until(deadline)` calls
`TimerRuntime::add`, which registers an entry iff `now < deadline`; the
race is decided at the first poll instant `u` at which a branch is
ready, the operation being polled first (`select_biased!` bias). -/
def timeout_at (deadline : Option Nat) (tc : Nat) (v : α)
    (now : Nat) : TimeoutOutcome α :=
  match deadline with
  | none => { result := .ok v, timerRegistered := false }
  | some dl =>
    let u := max now (min tc dl)
    { result := if tc ≤ u then .ok v else .elapsed,
      timerRegistered := now < dl }

/-- `timeout(duration, f)`: converts the relative duration to an
absolute deadline with `checked_add` (a `None` result of which drops
the deadline) and delegates to `timeout_at`. -/
def timeout (duration : Option Nat) (tc : Nat) (v : α)
    (now : Nat) : TimeoutOutcome α :=
  timeout_at (duration.bind fun x => checked_add x now) tc v now

/-! ## Wait queue (`wait_queue.rs`)

A listener created by `listener!(self.event => listener)` completes when
a `notify` releases it; the moment that happens is modelled by the
instant `tn`. -/

namespace WaitQueue

/-- `WaitQueue::wait_timeout(dur)`: reads the clock once (`now0`),
forms the absolute deadline `now0 + dur`, races a fresh listener
(released at `tn`) against it with `timeout_at`, and returns `is_ok()`. -/
def wait_timeout (now0 dur tn : Nat) : Bool :=
  let deadline := now0 + dur
  match (timeout_at (some deadline) tn () now0).result with
  | .ok _ => true
  | .elapsed => false

/-- One observable event of the `wait_until` loop: a predicate
evaluation (with its outcome), a listener registration, or a suspension
of the task on the registered listener. -/
inductive WEv where
  | eval (b : Bool)
  | register
  | suspend
deriving DecidableEq, Repr

/-- The event trace of `WaitQueue::wait_until(condition)`.  `cond i` is
the result of the i-th evaluation of the (stateful) predicate; `fuel`
bounds the number of loop iterations, `none` meaning the loop was still
running when the bound ran out.  Each iteration is: evaluate; if true
break; create a listener (`register`); evaluate again; if true break;
await the listener (`suspend`) and loop. -/
def waitUntilTrace (cond : Nat → Bool) : Nat → Nat → Option (List WEv)
  | _, 0 => none
  | i, fuel + 1 =>
    if cond i then some [WEv.eval true]
    else if cond (i + 1) then some [WEv.eval false, WEv.register, WEv.eval true]
    else (waitUntilTrace cond (i + 2) fuel).map
      (fun t => WEv.eval false :: WEv.register :: WEv.eval false :: WEv.suspend :: t)

/-- The loop shape `wait_until` is claimed to have: either the very
first evaluation is true (immediate return), or the trace is a sequence
of iterations, each evaluating false, registering a listener, then
re-evaluating — finishing if the re-check is true, suspending and
looping if it is false. -/
def wfTrace : List WEv → Bool
  | [WEv.eval true] => true
  | [WEv.eval false, WEv.register, WEv.eval true] => true
  | WEv.eval false :: WEv.register :: WEv.eval false :: WEv.suspend :: rest => wfTrace rest
  | _ => false

/-- `WaitQueue::wait_timeout_until(dur, condition)` loop body, with the
absolute `deadline` fixed before the loop.  `cond i` is the i-th
evaluation of the predicate and `clock i` the `wall_time()` reading of
the i-th iteration; the loop returns `false` when the predicate turns
true, `true` when the clock has reached the deadline with the predicate
still false, and otherwise awaits `timeout_at(deadline, listener)` and
retries.  `none` means `fuel` iterations did not reach an exit. -/
def waitTimeoutUntilLoop (deadline : Nat) (cond : Nat → Bool)
    (clock : Nat → Nat) : Nat → Nat → Option Bool
  | _, 0 => none
  | i, fuel + 1 =>
    if cond i then some false
    else if deadline ≤ clock i then some true
    else waitTimeoutUntilLoop deadline cond clock (i + 1) fuel

/-- `WaitQueue::wait_timeout_until(dur, condition)`: evaluates the
deadline `now0 + dur` once at entry, then runs the loop. -/
def wait_timeout_until (now0 dur : Nat) (cond : Nat → Bool)
    (clock : Nat → Nat) (fuel : Nat) : Option Bool :=
  waitTimeoutUntilLoop (now0 + dur) cond clock 0 fuel

end WaitQueue

/-! ## Ticketed alarm path (`timers.rs`)

`TIMER_TICKET_ID` is a global monotonically increasing counter
(`fetch_add`), `task.timer_ticket()` the per-task ticket.  Tasks are
opaque identifiers; the per-task ticket store is a total map. -/

/-- A task reference (`AxTaskRef`), as an opaque identifier. -/
abbrev TaskId := Nat

/-- `TaskWakeupEvent { ticket_id: u64, task: AxTaskRef }`. -/
structure TaskWakeupEvent where
  ticket_id : Nat
  task : TaskId
deriving DecidableEq, Repr

/-- The state touched by `set_alarm_wakeup` and
`TaskWakeupEvent::callback`: the global ticket counter, the per-task
tickets, and the pending `(deadline, event)` entries of the current
CPU's `TimerList`. -/
structure AlarmState where
  ticketCounter : Nat
  timerTicket : TaskId → Nat
  pending : List (Nat × TaskWakeupEvent)

/-- `set_alarm_wakeup(deadline, task)`: draw a fresh ticket from the
global counter (`fetch_add` returns the pre-increment value), store it
on the task (`set_timer_ticket`), and insert the wakeup event in the
timer list.  Returns the created entry alongside the new state. -/
def set_alarm_wakeup (s : AlarmState) (deadline : Nat) (task : TaskId) :
    AlarmState × TaskWakeupEvent :=
  let ticket_id := s.ticketCounter
  let ev : TaskWakeupEvent := { ticket_id := ticket_id, task := task }
  ({ ticketCounter := s.ticketCounter + 1,
     timerTicket := fun t => if t = task then ticket_id else s.timerTicket t,
     pending := (deadline, ev) :: s.pending }, ev)

/-- `TaskWakeupEvent::callback(now)`: compare the recorded ticket with
the task's live ticket; on mismatch do nothing, on match call
`unblock_task`.  Returns the task passed to `unblock_task`, if any. -/
def TaskWakeupEvent.fire (ev : TaskWakeupEvent) (s : AlarmState) : Option TaskId :=
  if s.timerTicket ev.task ≠ ev.ticket_id then none
  else some ev.task

/-! ## Polling bridge (`future/poll.rs`, `Poller::poll`) -/

/-- `axerrno::AxError`, split into the `WouldBlock` variant the bridge
inspects and everything else. -/
inductive AxError where
  | wouldBlock
  | other (code : Nat)
deriving DecidableEq, Repr

/-- `AxResult<T>` of one probe invocation. -/
inductive AxResult (α : Type) where
  | ok (v : α)
  | err (e : AxError)
deriving DecidableEq, Repr

/-- `Poll<AxResult<T>>` returned by `Poller::poll`. -/
inductive PollVerdict (α : Type) where
  | ready (r : AxResult α)
  | pending
deriving DecidableEq, Repr

/-- What one `Poller::poll` call did: its verdict, and whether it
registered the continuation with the event source. -/
structure PollerOutcome (α : Type) where
  verdict : PollVerdict α
  registered : Bool
deriving DecidableEq, Repr

/-- `Poller::poll`: `probe n` is the result of the (n+1)-th invocation
of the non-blocking closure `self.f` within this call.  First probe; on
`Ok`/non-`WouldBlock` error return it.  On `WouldBlock`: if
`non_blocking`, return `WouldBlock` without registering; otherwise
register with the event source and probe once more, going `Pending`
only if the retry also would-block. -/
def pollerPoll (nonBlocking : Bool) (probe : Nat → AxResult α) : PollerOutcome α :=
  match probe 0 with
  | .ok v => { verdict := .ready (.ok v), registered := false }
  | .err .wouldBlock =>
    if nonBlocking then
      { verdict := .ready (.err .wouldBlock), registered := false }
    else
      match probe 1 with
      | .ok v => { verdict := .ready (.ok v), registered := true }
      | .err .wouldBlock => { verdict := .pending, registered := true }
      | .err e => { verdict := .ready (.err e), registered := true }
  | .err e => { verdict := .ready (.err e), registered := false }

/-! ## Lemmas about the wheel's backing association list -/

theorem lookupEntry_insertEntry (k kp : TimerKey) (v : TimerState)
    (l : List (TimerKey × TimerState)) :
    lookupEntry k (insertEntry kp v l) =
      if kp = k then some v else lookupEntry k l := by
  induction l with
  | nil => simp [insertEntry, lookupEntry]
  | cons e rest ih =>
    simp only [insertEntry]
    by_cases h1 : keyLtb kp e.1
    · simp only [h1, if_true, lookupEntry]
    · simp only [h1, if_false]
      by_cases h2 : kp = e.1
      · rw [if_pos h2]
        by_cases hk : kp = k
        · simp [lookupEntry, hk]
        · have he : e.1 ≠ k := fun hh => hk (h2.trans hh)
          simp [lookupEntry, hk, he]
      · simp only [h2, if_false, lookupEntry, ih]
        by_cases he : e.1 = k
        · have hkp : kp ≠ k := fun hh => h2 (hh.trans he.symm)
          simp [he, hkp]
        · simp [he]

theorem lookupEntry_removeEntry_self (k : TimerKey)
    (l : List (TimerKey × TimerState)) :
    lookupEntry k (removeEntry k l) = none := by
  induction l with
  | nil => simp [removeEntry, lookupEntry]
  | cons e rest ih =>
    by_cases h : e.1 = k
    · simpa [removeEntry, List.filter_cons, h] using ih
    · simpa [removeEntry, List.filter_cons, h, lookupEntry] using ih

theorem lookupEntry_none_removeEntry (k kp : TimerKey)
    (l : List (TimerKey × TimerState)) (h : lookupEntry k l = none) :
    lookupEntry k (removeEntry kp l) = none := by
  induction l with
  | nil => simp [removeEntry, lookupEntry]
  | cons e rest ih =>
    simp only [lookupEntry] at h
    by_cases he : e.1 = k
    · simp [he] at h
    · simp only [he, if_false] at h
      by_cases hp : e.1 = kp
      · simpa [removeEntry, List.filter_cons, hp] using ih h
      · simpa [removeEntry, List.filter_cons, hp, lookupEntry, he] using ih h

theorem lookupEntry_none_update (k kp : TimerKey) (w : Waker)
    (l : List (TimerKey × TimerState)) (h : lookupEntry k l = none) :
    lookupEntry k
      (l.map (fun e => if e.1 = kp then (e.1, TimerState.active (some w)) else e)) =
      none := by
  induction l with
  | nil => simp [lookupEntry]
  | cons e rest ih =>
    simp only [lookupEntry] at h
    by_cases he : e.1 = k
    · simp [he] at h
    · simp only [he, if_false] at h
      by_cases hp : e.1 = kp
      · rw [List.map_cons, if_pos hp]
        simpa [lookupEntry, he] using ih h
      · rw [List.map_cons, if_neg hp]
        simpa [lookupEntry, he] using ih h

theorem map_update_id (k : TimerKey) (w : Waker)
    (l : List (TimerKey × TimerState)) (h : lookupEntry k l = none) :
    l.map (fun e => if e.1 = k then (e.1, TimerState.active (some w)) else e) = l := by
  induction l with
  | nil => simp
  | cons e rest ih =>
    simp only [lookupEntry] at h
    by_cases he : e.1 = k
    · simp [he] at h
    · simp only [he, if_false] at h
      simp [List.map_cons, he, ih h]

theorem lookupEntry_update_self (k : TimerKey) (w : Waker) (st : TimerState)
    (l : List (TimerKey × TimerState)) (h : lookupEntry k l = some st) :
    lookupEntry k
      (l.map (fun e => if e.1 = k then (e.1, TimerState.active (some w)) else e)) =
      some (TimerState.active (some w)) := by
  induction l with
  | nil => simp [lookupEntry] at h
  | cons e rest ih =>
    simp only [lookupEntry] at h
    by_cases he : e.1 = k
    · simp [List.map_cons, he, lookupEntry]
    · simp only [he, if_false] at h
      simp [List.map_cons, he, lookupEntry, ih h]

theorem wakeGo_lookup_none (now : Nat) (k : TimerKey)
    (l : List (TimerKey × TimerState)) (h : lookupEntry k l = none) :
    lookupEntry k (TimerRuntime.wakeGo now l).1 = none ∧
      k ∉ (TimerRuntime.wakeGo now l).2.1 := by
  induction l with
  | nil => simp [TimerRuntime.wakeGo, lookupEntry]
  | cons e rest ih =>
    obtain ⟨ek, ev⟩ := e
    simp only [lookupEntry] at h
    by_cases he : ek = k
    · simp [he] at h
    · simp only [he, if_false] at h
      obtain ⟨ih1, ih2⟩ := ih h
      by_cases hd : ek.1 ≤ now
      · simp only [TimerRuntime.wakeGo, hd, if_true]
        refine ⟨?_, ?_⟩
        · simpa [lookupEntry, he] using ih1
        · simp only [List.mem_cons]
          rintro (hh | hh)
          · exact he hh.symm
          · exact ih2 hh
      · simp [TimerRuntime.wakeGo, hd, lookupEntry, he, h]

theorem wakeGo_all_due (now : Nat) (l : List (TimerKey × TimerState))
    (h : ∀ e ∈ l, e.1.1 ≤ now) :
    TimerRuntime.wakeGo now l =
      (l.map (fun e => (e.1, TimerState.completed)), l.map (fun e => e.1),
        l.filterMap wakerOf) := by
  induction l with
  | nil => simp [TimerRuntime.wakeGo]
  | cons e rest ih =>
    obtain ⟨ek, ev⟩ := e
    have hd : ek.1 ≤ now := h (ek, ev) (List.mem_cons_self _ _)
    have hrest : ∀ e ∈ rest, e.1.1 ≤ now := fun e he => h e (List.mem_cons_of_mem _ he)
    simp only [TimerRuntime.wakeGo, hd, if_true, ih hrest, List.map_cons,
      List.filterMap_cons]
    cases ev with
    | active ow =>
      cases ow with
      | none => simp [wakerOf]
      | some w => simp [wakerOf]
    | completed => simp [wakerOf]

theorem insertEntry_append (k : TimerKey) (v : TimerState)
    (l : List (TimerKey × TimerState))
    (h : ∀ e ∈ l, keyLtb k e.1 = false ∧ k ≠ e.1) :
    insertEntry k v l = l ++ [(k, v)] := by
  induction l with
  | nil => simp [insertEntry]
  | cons e rest ih =>
    obtain ⟨h1, h2⟩ := h e (List.mem_cons_self _ _)
    have hrest : ∀ e ∈ rest, keyLtb k e.1 = false ∧ k ≠ e.1 :=
      fun e he => h e (List.mem_cons_of_mem _ he)
    simp [insertEntry, h1, h2, ih hrest]

theorem addAll_replicate (n : Nat) (dl now0 : Nat) (h : now0 < dl) :
    TimerRuntime.addAll TimerRuntime.new now0 (List.replicate n dl) =
      { key := n,
        wheel := (List.range n).map (fun i => ((dl, i), TimerState.active none)) } := by
  induction n with
  | zero => simp [TimerRuntime.addAll, TimerRuntime.new]
  | succ n ih =>
    rw [List.replicate_succ']
    unfold TimerRuntime.addAll at ih ⊢
    rw [List.foldl_append, ih]
    simp only [List.foldl_cons, List.foldl_nil]
    have hno : ¬ dl ≤ now0 := by omega
    simp only [TimerRuntime.add, hno, if_false]
    have hend : ∀ e ∈ (List.range n).map
        (fun i => ((dl, i), TimerState.active none)),
        keyLtb (dl, n) e.1 = false ∧ (dl, n) ≠ e.1 := by
      intro e he
      obtain ⟨i, hi, rfl⟩ := List.mem_map.mp he
      have hin : i < n := List.mem_range.mp hi
      constructor
      · simp only [keyLtb]
        simp only [Bool.or_eq_false_iff]
        constructor
        · simp [Nat.lt_irrefl]
        · simp only [Bool.and_eq_false_iff]
          right
          simp [Nat.not_lt.mpr (Nat.le_of_lt hin)]
      · intro hh
        rw [Prod.mk.injEq] at hh
        omega
    rw [insertEntry_append _ _ _ hend]
    rw [List.range_succ, List.map_append]
    simp

/-- A key the caller has been handed in the past but which is no longer
bound in the wheel: its sequence number has already been consumed by the
counter and no entry carries it. -/
def TimerRuntime.staleKey (s : TimerRuntime) (k : TimerKey) : Prop :=
  lookupEntry k s.wheel = none ∧ k.2 < s.key

theorem staleKey_applyOp (s : TimerRuntime) (k : TimerKey) (op : TimerOp)
    (h : s.staleKey k) : (s.applyOp op).staleKey k := by
  obtain ⟨h1, h2⟩ := h
  cases op with
  | opAdd now dl =>
    simp only [TimerRuntime.applyOp, TimerRuntime.add]
    by_cases hd : dl ≤ now
    · simpa [hd] using ⟨h1, h2⟩
    · simp only [hd, if_false]
      refine ⟨?_, by simpa using Nat.lt_succ_of_lt h2⟩
      rw [lookupEntry_insertEntry]
      have hne : (dl, s.key) ≠ k := by
        intro hh
        have : s.key = k.2 := congrArg Prod.snd hh
        omega
      simp [hne, h1]
  | opUpdateWaker kp w =>
    exact ⟨lookupEntry_none_update k kp w s.wheel h1, h2⟩
  | opIsCompleted kp =>
    simp only [TimerRuntime.applyOp, TimerRuntime.is_completed]
    by_cases hc : lookupEntry kp s.wheel = some TimerState.completed
    · simpa [hc] using ⟨lookupEntry_none_removeEntry k kp s.wheel h1, h2⟩
    · simpa [hc] using ⟨h1, h2⟩
  | opCancel kp =>
    exact ⟨lookupEntry_none_removeEntry k kp s.wheel h1, h2⟩
  | opWake now =>
    exact ⟨(wakeGo_lookup_none now k s.wheel h1).1, h2⟩

theorem staleKey_applyOps (s : TimerRuntime) (k : TimerKey) (ops : List TimerOp)
    (h : s.staleKey k) : (s.applyOps ops).staleKey k := by
  induction ops generalizing s with
  | nil => exact h
  | cons op rest ih =>
    exact ih (s.applyOp op) (staleKey_applyOp s k op h)

theorem removeEntry_idem (k : TimerKey) (l : List (TimerKey × TimerState)) :
    removeEntry k (removeEntry k l) = removeEntry k l := by
  induction l with
  | nil => rfl
  | cons e rest ih =>
    by_cases h : e.1 = k <;>
      simp only [removeEntry, List.filter_cons, h] at ih ⊢ <;>
      simp [removeEntry, List.filter_cons, h, ih]

/-! ## Claim theorems -/

/-- Claim C7, counterexample: the claim reads `add` as returning `None`
exactly when the deadline is strictly in the past (`deadline < now`),
but at `deadline = now = 5` the code's `deadline <= wall_time()` test
already returns `None`, so "returns `None` iff the deadline is earlier
than the current time" is false. -/
theorem add_past_boundary_counterexample :
    ¬ (((TimerRuntime.new.add 5 5).2 = none) ↔ 5 < 5) := by
  decide

/-- Claim C7 (amended): `TimerRuntime::add(deadline)` returns `None`
exactly when `deadline ≤ wall_time()` (not strictly earlier); otherwise
it allocates the next sequence number `self.key`, inserts the entry in
state `Active(None)`, increments the counter and returns
`Some((deadline, key))`. -/
theorem add_none_iff_deadline_le_now :
    ∀ (s : TimerRuntime) (now dl : Nat),
      (((s.add now dl).2 = none) ↔ dl ≤ now) ∧
      (now < dl →
        (s.add now dl).2 = some (dl, s.key) ∧
        (s.add now dl).1.key = s.key + 1 ∧
        lookupEntry (dl, s.key) (s.add now dl).1.wheel =
          some (TimerState.active none)) := by
  intro s now dl
  by_cases hd : dl ≤ now
  · exact ⟨by simp [TimerRuntime.add, hd], fun h => absurd h (by omega)⟩
  · refine ⟨by simp [TimerRuntime.add, hd], fun h => ?_⟩
    refine ⟨by simp [TimerRuntime.add, hd], by simp [TimerRuntime.add, hd], ?_⟩
    simp [TimerRuntime.add, hd, lookupEntry_insertEntry]

/-- Witness for the amended C7 theorem at `s = new`, `now = 0`, `dl = 5`. -/
theorem add_none_iff_deadline_le_now_witness :
    (((TimerRuntime.new.add 0 5).2 = none) ↔ (5 : Nat) ≤ 0) ∧
    (TimerRuntime.new.add 0 5).2 = some (5, TimerRuntime.new.key) :=
  ⟨(add_none_iff_deadline_le_now TimerRuntime.new 0 5).1,
   ((add_none_iff_deadline_le_now TimerRuntime.new 0 5).2 (by decide)).1⟩

/-- Claim C6, counterexample: after `add` at time 0 with deadline 1 and
a `wake` at time 1, the entry `(1, 0)` is `Completed` but still present;
`update_waker` then overwrites it back to `Active(Some(7))` instead of
being a no-op, contradicting "it never turns a Completed entry back into
an Active one". -/
theorem update_waker_revives_completed_counterexample :
    lookupEntry (1, 0) (((TimerRuntime.new.add 0 1).1.wake 1).1.wheel) =
        some TimerState.completed ∧
      lookupEntry (1, 0)
          ((((TimerRuntime.new.add 0 1).1.wake 1).1.update_waker (1, 0) 7).wheel) =
        some (TimerState.active (some 7)) := by
  decide

/-- Claim C6 (amended): `update_waker(key, waker)` stores or replaces
the continuation for any entry still present under `key` — whether
`Active` or already `Completed`, a completed entry being reverted to
`Active(Some(waker))` — and is a no-op (the runtime is unchanged) only
when the entry was removed. -/
theorem update_waker_overwrites_present_entry :
    ∀ (s : TimerRuntime) (k : TimerKey) (w : Waker),
      (lookupEntry k s.wheel = none → s.update_waker k w = s) ∧
      (∀ st, lookupEntry k s.wheel = some st →
        lookupEntry k (s.update_waker k w).wheel =
          some (TimerState.active (some w))) := by
  intro s k w
  constructor
  · intro h
    unfold TimerRuntime.update_waker
    rw [map_update_id k w s.wheel h]
  · intro st h
    exact lookupEntry_update_self k w st s.wheel h

/-- Witness for the amended C6 theorem: a no-op on an absent key, and an
overwrite of a present (completed) entry. -/
theorem update_waker_overwrites_present_entry_witness :
    (TimerRuntime.mk 1 []).update_waker (3, 0) 5 = TimerRuntime.mk 1 [] ∧
    lookupEntry (3, 0)
        (((TimerRuntime.mk 1 [((3, 0), TimerState.completed)]).update_waker
          (3, 0) 5).wheel) =
      some (TimerState.active (some 5)) :=
  ⟨(update_waker_overwrites_present_entry (TimerRuntime.mk 1 []) (3, 0) 5).1
      (by decide),
   (update_waker_overwrites_present_entry
      (TimerRuntime.mk 1 [((3, 0), TimerState.completed)]) (3, 0) 5).2
      TimerState.completed (by decide)⟩

/-- Claim C5: `cancel(key)` unconditionally removes the entry and is
idempotent (cancelling twice equals cancelling once); and for a key
whose sequence number was already consumed (`k.2 < s.key`, as holds for
every key `add` ever returned), after `cancel(key)` any interleaving of
further wheel operations leaves `is_completed(key)` false and no `wake`
ever processes that entry. -/
theorem cancel_idempotent_and_permanent :
    ∀ (s : TimerRuntime) (k : TimerKey),
      (s.cancel k).cancel k = s.cancel k ∧
      (k.2 < s.key → ∀ (ops : List TimerOp) (now : Nat),
        (((s.cancel k).applyOps ops).is_completed k).1 = false ∧
        k ∉ (((s.cancel k).applyOps ops).wake now).2.1) := by
  intro s k
  constructor
  · unfold TimerRuntime.cancel
    simp [removeEntry_idem]
  · intro hk ops now
    have hstale : (s.cancel k).staleKey k :=
      ⟨lookupEntry_removeEntry_self k s.wheel, hk⟩
    obtain ⟨hl, _⟩ := staleKey_applyOps (s.cancel k) k ops hstale
    constructor
    · simp [TimerRuntime.is_completed, hl]
    · simpa [TimerRuntime.wake] using
        (wakeGo_lookup_none now k ((s.cancel k).applyOps ops).wheel hl).2

/-- Witness for the C5 theorem: cancel the single registered entry, run
a `wake` past its deadline, and observe `is_completed` false and no
processing of the cancelled key. -/
theorem cancel_idempotent_and_permanent_witness :
    ((((TimerRuntime.new.add 0 5).1.cancel (5, 0)).applyOps
        [TimerOp.opWake 9]).is_completed (5, 0)).1 = false ∧
    (5, 0) ∉ ((((TimerRuntime.new.add 0 5).1.cancel (5, 0)).applyOps
        [TimerOp.opWake 9]).wake 9).2.1 :=
  (cancel_idempotent_and_permanent (TimerRuntime.new.add 0 5).1 (5, 0)).2
    (by decide) [TimerOp.opWake 9] 9

/-- Claim C4: `n` `add` calls with the same deadline `dl` (all issued
before `dl`) produce entries keyed `(dl, 0) … (dl, n-1)` with strictly
increasing, never-reused sequence numbers in registration order; a
`wake` at any `now ≥ dl` processes exactly those entries in ascending
`(deadline, sequence)` order — i.e. registration order — marking each
`Completed`. -/
theorem equal_deadline_timers_fire_in_registration_order :
    ∀ (n dl now0 now : Nat), now0 < dl → dl ≤ now →
      (TimerRuntime.addAll TimerRuntime.new now0 (List.replicate n dl)).wheel =
          (List.range n).map (fun i => ((dl, i), TimerState.active none)) ∧
      ((TimerRuntime.addAll TimerRuntime.new now0
          (List.replicate n dl)).wake now).2.1 =
          (List.range n).map (fun i => (dl, i)) ∧
      ((TimerRuntime.addAll TimerRuntime.new now0
          (List.replicate n dl)).wake now).1.wheel =
          (List.range n).map (fun i => ((dl, i), TimerState.completed)) := by
  intro n dl now0 now h1 h2
  rw [addAll_replicate n dl now0 h1]
  have hdue : ∀ e ∈ (List.range n).map
      (fun i => ((dl, i), TimerState.active none)), e.1.1 ≤ now := by
    intro e he
    obtain ⟨i, _, rfl⟩ := List.mem_map.mp he
    simpa using h2
  have hw := wakeGo_all_due now _ hdue
  refine ⟨rfl, ?_, ?_⟩
  · simp [TimerRuntime.wake, hw, List.map_map, Function.comp_def]
  · simp [TimerRuntime.wake, hw, List.map_map, Function.comp_def]

/-- Witness for the C4 theorem: three timers registered at time 2 for
deadline 5 fire at time 9 in registration order. -/
theorem equal_deadline_timers_fire_in_registration_order_witness :
    ((TimerRuntime.addAll TimerRuntime.new 2 (List.replicate 3 5)).wake 9).2.1 =
      (List.range 3).map (fun i => (5, i)) :=
  (equal_deadline_timers_fire_in_registration_order 3 5 2 9 (by decide)
    (by decide)).2.1

/-- The race result of `timeout_at` with a deadline, in closed form:
the first ready branch at the decisive poll instant, operation first. -/
theorem timeout_at_result_eq {α : Type} (dl tc now : Nat) (v : α) :
    (timeout_at (some dl) tc v now).result =
      if tc ≤ max now (min tc dl) then TimeoutResult.ok v
      else TimeoutResult.elapsed := rfl

/-- Claim C3: with `Some d`, `timeout` returns `Elapsed` when the
operation does not complete within `d` (its completion time `tc`, a
representable instant, exceeds `now + d`) and the operation's result
when it completes strictly before the deadline; with `None` it awaits
the operation unconditionally, registering no timer. -/
theorem timeout_deadline_semantics :
    ∀ {α : Type} (d tc now : Nat) (v : α),
      (tc ≤ durationMax → now + d < tc →
        (timeout (some d) tc v now).result = TimeoutResult.elapsed) ∧
      (tc < now + d → (timeout (some d) tc v now).result = TimeoutResult.ok v) ∧
      timeout none tc v now =
        { result := TimeoutResult.ok v, timerRegistered := false } := by
  intro α d tc now v
  refine ⟨?_, ?_, rfl⟩
  · intro hmax hlt
    have hc : checked_add d now = some (d + now) := by
      unfold checked_add
      rw [if_pos (by omega)]
    have : timeout (some d) tc v now = timeout_at (some (d + now)) tc v now := by
      simp [timeout, hc]
    rw [this, timeout_at_result_eq]
    rw [if_neg (by omega)]
  · intro hlt
    cases hc : checked_add d now with
    | none =>
      simp [timeout, hc, timeout_at]
    | some dl2 =>
      have hdl2 : dl2 = d + now := by
        unfold checked_add at hc
        by_cases h : d + now ≤ durationMax
        · rw [if_pos h] at hc
          exact (Option.some.inj hc).symm
        · rw [if_neg h] at hc
          exact absurd hc (by simp)
      subst hdl2
      have : timeout (some d) tc v now = timeout_at (some (d + now)) tc v now := by
        simp [timeout, hc]
      rw [this, timeout_at_result_eq]
      rw [if_pos (by omega)]

/-- Witness for the C3 theorem: with `now = 5`, `d = 10` a completion at
20 elapses, a completion at 12 wins, and `None` always yields `Ok`. -/
theorem timeout_deadline_semantics_witness :
    (timeout (some 10) 20 (7 : Nat) 5).result = TimeoutResult.elapsed ∧
    (timeout (some 10) 12 (7 : Nat) 5).result = TimeoutResult.ok 7 ∧
    timeout none 20 (7 : Nat) 5 =
      { result := TimeoutResult.ok 7, timerRegistered := false } :=
  ⟨(timeout_deadline_semantics 10 20 5 7).1 (by decide) (by decide),
   (timeout_deadline_semantics 10 12 5 7).2.1 (by decide),
   (timeout_deadline_semantics 10 20 5 7).2.2⟩

/-- Claim C10: when `d.checked_add(wall_time())` overflows (`None`),
`timeout(Some(d), op)` silently takes the no-deadline path: no timer is
registered, the operation is awaited unconditionally, and the result can
never be `Elapsed`. -/
theorem timeout_overflow_degrades {α : Type} (d tc now : Nat) (v : α)
    (h : checked_add d now = none) :
    timeout (some d) tc v now =
      { result := TimeoutResult.ok v, timerRegistered := false } := by
  simp [timeout, h, timeout_at]

/-- Witness for the C10 theorem: `durationMax` added to time 1
overflows, so `timeout` degrades to awaiting the operation. -/
theorem timeout_overflow_degrades_witness :
    timeout (some durationMax) 0 (42 : Nat) 1 =
      { result := TimeoutResult.ok 42, timerRegistered := false } :=
  timeout_overflow_degrades durationMax 0 1 42 (by decide)

/-- If the `wait_timeout_until` loop returns `true`, some evaluation of
the predicate came back false at an iteration whose clock reading had
reached the (fixed) deadline. -/
theorem waitTimeoutUntilLoop_true_exit (deadline : Nat) (cond : Nat → Bool)
    (clock : Nat → Nat) :
    ∀ (fuel i : Nat),
      WaitQueue.waitTimeoutUntilLoop deadline cond clock i fuel = some true →
      ∃ j, cond j = false ∧ deadline ≤ clock j := by
  intro fuel
  induction fuel with
  | zero =>
    intro i h
    exact absurd h (by simp [WaitQueue.waitTimeoutUntilLoop])
  | succ fuel ih =>
    intro i h
    by_cases hc : cond i
    · simp [WaitQueue.waitTimeoutUntilLoop, hc] at h
    · by_cases hd : deadline ≤ clock i
      · exact ⟨i, by simpa using hc, hd⟩
      · simp only [WaitQueue.waitTimeoutUntilLoop, hc, hd, if_false,
          Bool.false_eq_true] at h
        exact ih (i + 1) h

/-- If the `wait_timeout_until` loop returns `false`, some evaluation of
the predicate came back true. -/
theorem waitTimeoutUntilLoop_false_exit (deadline : Nat) (cond : Nat → Bool)
    (clock : Nat → Nat) :
    ∀ (fuel i : Nat),
      WaitQueue.waitTimeoutUntilLoop deadline cond clock i fuel = some false →
      ∃ j, cond j = true := by
  intro fuel
  induction fuel with
  | zero =>
    intro i h
    exact absurd h (by simp [WaitQueue.waitTimeoutUntilLoop])
  | succ fuel ih =>
    intro i h
    by_cases hc : cond i
    · exact ⟨i, hc⟩
    · by_cases hd : deadline ≤ clock i
      · simp [WaitQueue.waitTimeoutUntilLoop, hc, hd] at h
      · simp only [WaitQueue.waitTimeoutUntilLoop, hc, hd, if_false,
          Bool.false_eq_true] at h
        exact ih (i + 1) h

/-- Claim C1, counterexample: `wait_timeout` returns
`timeout_at(...).is_ok()`, which is `true` when the listener is
*notified before the deadline* — here the wait is entered at time 0
with duration 5 and the notify arrives at time 1, no timeout occurred,
yet `wait_timeout` returns `true`, refuting "true exactly when the wait
timed out". -/
theorem wait_timeout_counterexample :
    ¬ (WaitQueue.wait_timeout 0 5 1 = true ↔ 0 + 5 ≤ 1) := by
  decide

/-- Claim C1 (amended): `wait_timeout(dur)` returns `true` exactly when
the listener was released by a notify no later than the absolute
deadline `now0 + dur` computed once at entry — i.e. `false`, not
`true`, signals a timeout; `wait_timeout_until(dur, p)` returns `true`
exactly on the timeout path: a `true` exit happens only at an iteration
where the predicate evaluated false and the clock had reached the
deadline, a `false` exit only after the predicate evaluated true; and
because the deadline is evaluated once at entry, any iteration that
starts past the deadline with the predicate still false returns `true`
immediately — repeated wake/recheck cycles never extend the effective
timeout. -/
theorem wait_timeout_boolean_semantics :
    ∀ (now0 dur tn : Nat),
      (WaitQueue.wait_timeout now0 dur tn = true ↔ tn ≤ now0 + dur) ∧
      (∀ (cond : Nat → Bool) (clock : Nat → Nat) (fuel : Nat),
        WaitQueue.wait_timeout_until now0 dur cond clock fuel = some true →
        ∃ j, cond j = false ∧ now0 + dur ≤ clock j) ∧
      (∀ (cond : Nat → Bool) (clock : Nat → Nat) (fuel : Nat),
        WaitQueue.wait_timeout_until now0 dur cond clock fuel = some false →
        ∃ j, cond j = true) ∧
      (∀ (cond : Nat → Bool) (clock : Nat → Nat) (i fuel : Nat),
        cond i = false → now0 + dur ≤ clock i →
        WaitQueue.waitTimeoutUntilLoop (now0 + dur) cond clock i (fuel + 1) =
          some true) := by
  intro now0 dur tn
  refine ⟨?_, ?_, ?_, ?_⟩
  · by_cases h : tn ≤ now0 + dur
    · have hr : (timeout_at (some (now0 + dur)) tn () now0).result =
          TimeoutResult.ok () := by
        rw [timeout_at_result_eq]
        rw [if_pos (by omega)]
      simp [WaitQueue.wait_timeout, hr, h]
    · have hr : (timeout_at (some (now0 + dur)) tn () now0).result =
          TimeoutResult.elapsed := by
        rw [timeout_at_result_eq]
        rw [if_neg (by omega)]
      simp [WaitQueue.wait_timeout, hr, h]
  · intro cond clock fuel h
    exact waitTimeoutUntilLoop_true_exit (now0 + dur) cond clock fuel 0 h
  · intro cond clock fuel h
    exact waitTimeoutUntilLoop_false_exit (now0 + dur) cond clock fuel 0 h
  · intro cond clock i fuel hc hd
    simp [WaitQueue.waitTimeoutUntilLoop, hc, hd]

/-- Witness for the amended C1 theorem: a notify at 1 beats deadline 5
(`wait_timeout` true); a run of `wait_timeout_until` whose predicate
stays false exits `true` once the clock (3·i) passes the deadline; and
an iteration entered at a clock reading past the deadline returns
`true` at once. -/
theorem wait_timeout_boolean_semantics_witness :
    (WaitQueue.wait_timeout 0 5 1 = true ↔ (1 : Nat) ≤ 0 + 5) ∧
    (∃ j, (fun _ : Nat => false) j = false ∧ 0 + 5 ≤ (fun k => 3 * k) j) ∧
    WaitQueue.waitTimeoutUntilLoop (0 + 5) (fun _ => false) (fun k => 3 * k) 2
      (0 + 1) = some true :=
  ⟨(wait_timeout_boolean_semantics 0 5 1).1,
   (wait_timeout_boolean_semantics 0 5 1).2.1 (fun _ => false) (fun k => 3 * k)
     3 (by decide),
   (wait_timeout_boolean_semantics 0 5 1).2.2.2 (fun _ => false)
     (fun k => 3 * k) 2 0 (by decide) (by decide)⟩

/-- Claim C2: firing an alarm entry created before a second
`set_alarm_wakeup` for the same task performs no unblock — the second
call stored a strictly newer ticket on the task, and
`TaskWakeupEvent::callback` calls `unblock_task` only when the ticket
recorded in the entry equals the task's current ticket at fire time. -/
theorem stale_alarm_does_not_unblock :
    ∀ (s : AlarmState) (T : TaskId) (d1 d2 : Nat),
      ((set_alarm_wakeup s d1 T).2).fire
          (set_alarm_wakeup (set_alarm_wakeup s d1 T).1 d2 T).1 = none ∧
      (∀ (s2 : AlarmState) (ev : TaskWakeupEvent) (t : TaskId),
        ev.fire s2 = some t →
          s2.timerTicket ev.task = ev.ticket_id ∧ t = ev.task) := by
  intro s T d1 d2
  constructor
  · simp [set_alarm_wakeup, TaskWakeupEvent.fire]
  · intro s2 ev t h
    unfold TaskWakeupEvent.fire at h
    by_cases hh : s2.timerTicket ev.task = ev.ticket_id
    · rw [if_neg (by simpa using hh)] at h
      exact ⟨hh, (Option.some.inj h).symm⟩
    · rw [if_pos hh] at h
      exact absurd h (by simp)

/-- Witness for the C2 theorem: two alarms for task 7 from a fresh
ticket counter, then firing the first entry (no unblock); and a direct
fire whose unblock implies the ticket match. -/
theorem stale_alarm_does_not_unblock_witness :
    ((set_alarm_wakeup (AlarmState.mk 1 (fun _ => 0) []) 10 7).2).fire
        (set_alarm_wakeup
          (set_alarm_wakeup (AlarmState.mk 1 (fun _ => 0) []) 10 7).1 20 7).1 =
      none ∧
    ((AlarmState.mk 9 (fun _ => 5) []).timerTicket 7 = 5 ∧ 7 = 7) :=
  ⟨(stale_alarm_does_not_unblock (AlarmState.mk 1 (fun _ => 0) []) 7 10 20).1,
   (stale_alarm_does_not_unblock (AlarmState.mk 1 (fun _ => 0) []) 7 10 20).2
     (AlarmState.mk 9 (fun _ => 5) []) ⟨5, 7⟩ 7 (by decide)⟩

/-- Claim C8: `wait_until(predicate)` returns immediately — no listener
registration, no suspension — when the predicate is true at call time;
otherwise every terminating trace is a sequence of iterations, each of
which evaluates false, registers a listener *before* the second
evaluation, finishes if the re-check is true, and suspends (then
repeats the whole check) only if the re-check is still false. -/
theorem wait_until_trace_wellformed :
    ∀ (cond : Nat → Bool) (fuel i : Nat) (t : List WaitQueue.WEv),
      WaitQueue.waitUntilTrace cond i fuel = some t →
        (cond i = true → t = [WaitQueue.WEv.eval true] ∧
          WaitQueue.WEv.register ∉ t ∧ WaitQueue.WEv.suspend ∉ t) ∧
        WaitQueue.wfTrace t = true := by
  intro cond fuel
  induction fuel with
  | zero =>
    intro i t h
    exact absurd h (by simp [WaitQueue.waitUntilTrace])
  | succ fuel ih =>
    intro i t h
    by_cases h0 : cond i
    · simp only [WaitQueue.waitUntilTrace, h0, if_true] at h
      obtain rfl := Option.some.inj h
      exact ⟨fun _ => ⟨rfl, by decide, by decide⟩, by decide⟩
    · by_cases h1 : cond (i + 1)
      · simp only [WaitQueue.waitUntilTrace, h0, h1, if_true, if_false,
          Bool.false_eq_true] at h
        obtain rfl := Option.some.inj h
        exact ⟨fun hc => absurd hc h0, by decide⟩
      · simp only [WaitQueue.waitUntilTrace, h0, h1, if_false,
          Bool.false_eq_true] at h
        cases hrec : WaitQueue.waitUntilTrace cond (i + 2) fuel with
        | none => rw [hrec] at h; exact absurd h (by simp)
        | some t2 =>
          rw [hrec] at h
          simp only [Option.map_some'] at h
          obtain rfl := Option.some.inj h
          refine ⟨fun hc => absurd hc h0, ?_⟩
          simpa [WaitQueue.wfTrace] using (ih (i + 2) t2 hrec).2

/-- Witness for the C8 theorem: a predicate true at entry yields the
single-evaluation trace; a predicate that turns true at the third
evaluation yields one full register/recheck/suspend iteration. -/
theorem wait_until_trace_wellformed_witness :
    ([WaitQueue.WEv.eval true] = [WaitQueue.WEv.eval true] ∧
      WaitQueue.WEv.register ∉ [WaitQueue.WEv.eval true] ∧
      WaitQueue.WEv.suspend ∉ [WaitQueue.WEv.eval true]) ∧
    WaitQueue.wfTrace [WaitQueue.WEv.eval false, WaitQueue.WEv.register,
      WaitQueue.WEv.eval false, WaitQueue.WEv.suspend,
      WaitQueue.WEv.eval true] = true :=
  ⟨(wait_until_trace_wellformed (fun _ => true) 1 0 [WaitQueue.WEv.eval true]
      (by decide)).1 rfl,
   (wait_until_trace_wellformed (fun i => decide (2 ≤ i)) 3 0
      [WaitQueue.WEv.eval false, WaitQueue.WEv.register,
        WaitQueue.WEv.eval false, WaitQueue.WEv.suspend,
        WaitQueue.WEv.eval true] (by decide)).2⟩

/-- Claim C9: `Poller::poll` returns `Ready` at once on a first-probe
success or non-`WouldBlock` error; on `WouldBlock` with `non_blocking`
set it returns `Ready(Err(WouldBlock))` without registering; otherwise
it registers with the event source and retries the probe exactly once —
the call consults no probe result beyond the second — returning `Ready`
on the retry's success or non-`WouldBlock` error and `Pending` only
when the retry also would-blocks. -/
theorem poller_poll_semantics :
    ∀ {α : Type} (nb : Bool) (probe : Nat → AxResult α) (v : α) (c : Nat),
      (probe 0 = AxResult.ok v →
        pollerPoll nb probe =
          { verdict := .ready (.ok v), registered := false }) ∧
      (probe 0 = AxResult.err (AxError.other c) →
        pollerPoll nb probe =
          { verdict := .ready (.err (.other c)), registered := false }) ∧
      (probe 0 = AxResult.err AxError.wouldBlock →
        pollerPoll true probe =
          { verdict := .ready (.err .wouldBlock), registered := false }) ∧
      (probe 0 = AxResult.err AxError.wouldBlock → probe 1 = AxResult.ok v →
        pollerPoll false probe =
          { verdict := .ready (.ok v), registered := true }) ∧
      (probe 0 = AxResult.err AxError.wouldBlock →
        probe 1 = AxResult.err AxError.wouldBlock →
        pollerPoll false probe =
          { verdict := .pending, registered := true }) ∧
      (probe 0 = AxResult.err AxError.wouldBlock →
        probe 1 = AxResult.err (AxError.other c) →
        pollerPoll false probe =
          { verdict := .ready (.err (.other c)), registered := true }) ∧
      (∀ q : Nat → AxResult α, probe 0 = q 0 → probe 1 = q 1 →
        pollerPoll nb probe = pollerPoll nb q) := by
  intro α nb probe v c
  refine ⟨?_, ?_, ?_, ?_, ?_, ?_, ?_⟩
  · intro h; simp [pollerPoll, h]
  · intro h; simp [pollerPoll, h]
  · intro h; simp [pollerPoll, h]
  · intro h0 h1; simp [pollerPoll, h0, h1]
  · intro h0 h1; simp [pollerPoll, h0, h1]
  · intro h0 h1; simp [pollerPoll, h0, h1]
  · intro q h0 h1
    unfold pollerPoll
    rw [h0, h1]

/-- Witness for the C9 theorem: a probe that would-blocks once and
succeeds on the registered retry yields `Ready(Ok 42)` with a
registration. -/
theorem poller_poll_semantics_witness :
    pollerPoll false (fun n => if n = 0 then .err .wouldBlock else .ok 42) =
      { verdict := .ready (.ok (42 : Nat)), registered := true } :=
  (poller_poll_semantics false
      (fun n => if n = 0 then .err .wouldBlock else .ok 42) 42 0).2.2.2.1
    (by decide) (by decide)

end ArceOS
